import Mathlib

/-!
Shallow embedding of the metrics engine of `src/dashboard.py` (StockTrader).

Modelling conventions:
* IEEE doubles are idealised as exact rationals; a floating-point NaN is
  modelled as `none` in `Option ℚ`.  All closes supplied by the data layer
  are positive reals (data model, spec section 3), so no infinities arise on
  the modelled code paths except in the RSI quotient, which is treated
  explicitly where it occurs (`rsiCell`).
* pandas series are positional lists; the date-indexed behaviour of the
  portfolio section (index alignment of `Series` arithmetic) is modelled by
  association lists `ASeries = List (ℕ × Option ℚ)` of (date, value) pairs.
* `ℚ` division is total with `x / 0 = 0`; every theorem whose meaning
  depends on a quotient carries the positivity hypotheses that make the
  rational model agree with the float semantics of the source.
-/

namespace StockTrader

/-- A pandas cell: a float that may be NaN (`none`). -/
abbrev Val := Option ℚ

/-- Elementwise addition; NaN propagates (models float `+`). -/
def vAdd : Val → Val → Val
  | some a, some b => some (a + b)
  | _, _ => none

/-- Elementwise multiplication; NaN propagates (models float `*`). -/
def vMul : Val → Val → Val
  | some a, some b => some (a * b)
  | _, _ => none

/-- Elementwise subtraction; NaN propagates. -/
def vSub : Val → Val → Val
  | some a, some b => some (a - b)
  | _, _ => none

/-- Elementwise division; NaN propagates.  Used only where the divisor is
provably nonzero in the theorems (drawdown with positive closes). -/
def vDiv : Val → Val → Val
  | some a, some b => some (a / b)
  | _, _ => none

/-- Scalar multiplication `series * weight` (line 164); NaN propagates. -/
def vScale (w : ℚ) (v : Val) : Val := v.map (fun q => q * w)

/-- Scalar shift `1 + series` (lines 78, 166, 169); NaN propagates. -/
def vAdd1 (v : Val) : Val := v.map (fun q => 1 + q)

/-- Successive fractional changes: value at position `k` is
`xs[k+1] / xs[k] - 1`, the tail of `pct_change` (line 77). -/
def retVals : ℚ → List ℚ → List ℚ
  | _, [] => []
  | prev, y :: ys => (y / prev - 1) :: retVals y ys

/-- pandas `Series.pct_change()` (line 77): NaN at position 0, then the
fractional change from the prior value. -/
def pctChange : List ℚ → List Val
  | [] => []
  | x :: xs => none :: (retVals x xs).map some

/-- Successive differences, tail of `Series.diff()` (line 81). -/
def diffVals : ℚ → List ℚ → List ℚ
  | _, [] => []
  | prev, y :: ys => (y - prev) :: diffVals y ys

/-- pandas `Series.diff()` (line 81): NaN at position 0, then differences. -/
def diffList : List ℚ → List Val
  | [] => []
  | x :: xs => none :: (diffVals x xs).map some

/-- pandas `Series.rolling(w).mean()` (lines 75, 76, 82, 83) on a NaN-free
series: NaN until the window is full, then the mean of the trailing `w`
entries. -/
def rollingMean (w : ℕ) (xs : List ℚ) : List Val :=
  (List.range xs.length).map (fun i =>
    if w ≤ i + 1 then some (((xs.drop (i + 1 - w)).take w).sum / (w : ℚ)) else none)

/-- pandas `Series.cumprod()` with the default `skipna=True` (lines 78, 166):
NaN cells stay NaN in the output and are skipped by the running product. -/
def cumprodSkipAux : ℚ → List Val → List Val
  | _, [] => []
  | acc, none :: xs => none :: cumprodSkipAux acc xs
  | acc, some q :: xs => some (acc * q) :: cumprodSkipAux (acc * q) xs

/-- pandas `Series.cumprod()` starting from an empty product. -/
def cumprodSkip (xs : List Val) : List Val := cumprodSkipAux 1 xs

/-- pandas `Series.cummax()` with the default `skipna=True` (lines 88, 176):
NaN cells stay NaN and are skipped by the running maximum. -/
def cummaxSkipAux : Option ℚ → List Val → List Val
  | _, [] => []
  | acc, none :: xs => none :: cummaxSkipAux acc xs
  | none, some q :: xs => some q :: cummaxSkipAux (some q) xs
  | some m, some q :: xs => some (max m q) :: cummaxSkipAux (some (max m q)) xs

/-- pandas `Series.cummax()` starting with no value seen yet. -/
def cummaxSkip (xs : List Val) : List Val := cummaxSkipAux none xs

/-- Line 82, `delta.where(delta > 0, 0)`: keep positive moves, else 0.  The
NaN at position 0 fails the comparison and is replaced by 0 as well. -/
def gainsOf (closes : List ℚ) : List ℚ :=
  (diffList closes).map (fun v =>
    match v with
    | some d => if 0 < d then d else 0
    | none => 0)

/-- Line 83, `-delta.where(delta < 0, 0)`: keep negated negative moves,
else 0; the position-0 NaN becomes 0. -/
def lossesOf (closes : List ℚ) : List ℚ :=
  (diffList closes).map (fun v =>
    match v with
    | some d => if d < 0 then -d else 0
    | none => 0)

/-- One RSI cell from the rolling average gain and loss (lines 84, 85).
With `l ≠ 0` this is `100 - 100 / (1 + g / l)` literally.  With `l = 0`
the float code divides by zero: `g / 0` is `±inf` for `g ≠ 0`, which makes
`100 - 100 / (1 + g / 0)` evaluate to exactly `100.0`, and `0 / 0` is NaN,
which propagates; the two `l = 0` branches record those IEEE outcomes.
(`g` and `l` are means of nonnegative lists, so `1 + g / l` is never 0 and
the rational division in the `l ≠ 0` branch is faithful.) -/
def rsiCell : Val → Val → Val
  | some g, some l =>
    if l = 0 then (if g = 0 then none else some 100)
    else some (100 - 100 / (1 + g / l))
  | _, _ => none

/-- The RSI column (lines 81-85) with the hard-coded 14-period window. -/
def rsiOf (closes : List ℚ) : List Val :=
  List.zipWith rsiCell (rollingMean 14 (gainsOf closes)) (rollingMean 14 (lossesOf closes))

/-- The non-NaN cells of a series, in order (what pandas skips over). -/
def validVals (xs : List Val) : List ℚ := xs.filterMap id

/-- pandas `Series.mean()` (skipna): NaN when no cell is defined. -/
def seriesMean (xs : List Val) : Val :=
  if (validVals xs).length = 0 then none
  else some ((validVals xs).sum / ((validVals xs).length : ℚ))

/-- pandas `Series.var()` with the default `ddof=1` (sample variance, the
square of the `std` used on lines 93, 173): NaN with fewer than two defined
cells. -/
def sampleVar (xs : List Val) : Val :=
  if (validVals xs).length ≤ 1 then none
  else
    some (((validVals xs).map
      (fun x => (x - (validVals xs).sum / ((validVals xs).length : ℚ)) ^ 2)).sum /
      (((validVals xs).length - 1 : ℕ) : ℚ))

/-- Exact representation of the Sharpe scalar `mean / std * 252 ** 0.5`
(lines 92-94, 172-174).  `std = sqrt var` is irrational, so the exact value
is carried as data: `nan` denotes float NaN (the guard `volatility != 0` is
True for NaN volatility, and `mean / NaN` is NaN); `zero` denotes the `0`
of the `else 0` fallback; `val m v` denotes `m / sqrt v * sqrt 252` with
`v > 0`.  Equal representations denote equal floats. -/
inductive SharpeVal where
  | nan : SharpeVal
  | zero : SharpeVal
  | val (m v : ℚ) : SharpeVal
deriving DecidableEq

/-- Lines 92-94 / 172-174: `mean_return / volatility * (252**0.5) if
volatility != 0 else 0`, applied to a return series.  `volatility` is NaN
iff the sample variance is NaN, and is 0 iff the variance is 0. -/
def sharpeOf (rets : List Val) : SharpeVal :=
  match sampleVar rets, seriesMean rets with
  | none, _ => SharpeVal.nan
  | some _, none => SharpeVal.nan
  | some v, some m => if v = 0 then SharpeVal.zero else SharpeVal.val m v

/-- The `Cumulative` column (line 78): `(1 + Returns).cumprod()`. -/
def cumulativeOf (closes : List ℚ) : List Val :=
  cumprodSkip ((pctChange closes).map vAdd1)

/-- The `Drawdown` column (lines 88, 89 and 176, 177):
`(Cumulative - Cumulative.cummax()) / Cumulative.cummax()`. -/
def drawdownOf (c : List Val) : List Val :=
  List.zipWith (fun x m => vDiv (vSub x m) m) c (cummaxSkip c)

/-- The DataFrame produced by `get_data` (lines 72-96), as the columns the
engine derives.  Input bars are (date, close) pairs; `MA20`/`MA50` windows
are the sidebar-configured parameters. -/
structure StockData where
  dates : List ℕ
  close : List ℚ
  ma20 : List Val
  ma50 : List Val
  returns : List Val
  cumulative : List Val
  rsi : List Val
  drawdown : List Val
  sharpe : SharpeVal
deriving DecidableEq

/-- `get_data` (lines 72-96). -/
def get_data (ma20w ma50w : ℕ) (bars : List (ℕ × ℚ)) : StockData :=
  { dates := bars.map Prod.fst
    close := bars.map Prod.snd
    ma20 := rollingMean ma20w (bars.map Prod.snd)
    ma50 := rollingMean ma50w (bars.map Prod.snd)
    returns := pctChange (bars.map Prod.snd)
    cumulative := cumulativeOf (bars.map Prod.snd)
    rsi := rsiOf (bars.map Prod.snd)
    drawdown := drawdownOf (cumulativeOf (bars.map Prod.snd))
    sharpe := sharpeOf (pctChange (bars.map Prod.snd)) }

/-- A date-indexed pandas Series: (date, cell) pairs in index order.  Dates
are unique per ticker (data model, spec section 3). -/
abbrev ASeries := List (ℕ × Val)

/-- Reading a date off a Series during aligned arithmetic: a missing label
contributes NaN, exactly like a present NaN cell. -/
def lookupVal (d : ℕ) : ASeries → Val
  | [] => none
  | p :: t => if p.1 = d then p.2 else lookupVal d t

/-- The column update `frame[col] = frame[col] OP series` (lines 169, 170):
pandas aligns the binary operation over the union of the two indexes with
NaN for missing labels, then writes the result back on the frame's existing
index, so each kept date combines the old cell with the (possibly missing,
hence NaN) cell of the right-hand series. -/
def combineInto (f : Val → Val → Val) (s t : ASeries) : ASeries :=
  s.map (fun p => (p.1, f p.2 (lookupVal p.1 t)))

/-- The two columns of the `portfolio_data` frame (lines 161-170). -/
structure PortfolioData where
  cumulative : ASeries
  dailyReturn : ASeries
deriving DecidableEq

/-- One iteration of the loop on lines 162-170, acting on the weighted
return series of one constituent.  While the frame is still empty the
columns are seeded (`Cumulative` with a genuine cumulative product), and
afterwards each further constituent is combined in pointwise: its
`(1 + Weighted_Return)` multiplies `Cumulative` date by date with no
further cumulative product, and its `Weighted_Return` adds into
`Daily_Return`. -/
def portfolioStep (acc : PortfolioData) (entry : ASeries) : PortfolioData :=
  if acc.cumulative.isEmpty then
    { cumulative := (entry.map Prod.fst).zip (cumprodSkip ((entry.map Prod.snd).map vAdd1))
      dailyReturn := entry }
  else
    { cumulative := combineInto vMul acc.cumulative (entry.map (fun q => (q.1, vAdd1 q.2)))
      dailyReturn := combineInto vAdd acc.dailyReturn entry }

/-- Lines 163-164: `df = get_data(ticker, period)` followed by
`df['Weighted_Return'] = df['Returns'] * weight`, as a date-indexed
series.  A constituent is its bar list paired with its weight. -/
def weightedEntry (ma20w ma50w : ℕ) (c : List (ℕ × ℚ) × ℚ) : ASeries :=
  (get_data ma20w ma50w c.1).dates.zip ((get_data ma20w ma50w c.1).returns.map (vScale c.2))

/-- The whole loop of lines 161-170 over the (bars, weight) constituents. -/
def portfolio_data (ma20w ma50w : ℕ) (cs : List (List (ℕ × ℚ) × ℚ)) : PortfolioData :=
  cs.foldl (fun acc c => portfolioStep acc (weightedEntry ma20w ma50w c)) ⟨[], []⟩

/-- Lines 172-174: the portfolio Sharpe scalar from the `Daily_Return`
column, by the same formula and guard as the single-asset one. -/
def portfolioSharpe (pd : PortfolioData) : SharpeVal :=
  sharpeOf (pd.dailyReturn.map Prod.snd)

/-- Lines 176-177: the portfolio drawdown series from `Cumulative`, by the
single-asset formula. -/
def portfolioDrawdown (pd : PortfolioData) : ASeries :=
  (pd.cumulative.map Prod.fst).zip (drawdownOf (pd.cumulative.map Prod.snd))

/-- The sidebar weight check plus portfolio section entry (lines 67-69 and
156-157): `st.sidebar.error` is shown when the weights miss 1 by more than
the 0.01 tolerance (a displayed message, not an exception), and the
portfolio computation runs whenever the ticker and weight lists match in
length, independent of that message. -/
structure DashboardOutcome where
  weightMismatchShown : Bool
  result : Option PortfolioData
deriving DecidableEq

/-- Lines 67-69 and 156-170 as one step: validate the weights, then (when
the lengths match, line 157) run the portfolio loop on the zipped
(bars, weight) pairs regardless of the validation outcome. -/
def portfolioSection (ma20w ma50w : ℕ) (tickers : List (List (ℕ × ℚ))) (ws : List ℚ) :
    DashboardOutcome :=
  { weightMismatchShown := decide (|ws.sum - 1| > 1 / 100)
    result :=
      if ws.length = tickers.length then
        some (portfolio_data ma20w ma50w (tickers.zip ws))
      else none }

/-- Spec-side reading (for claim C1): a NaN-propagating sum of a list of
cells, the "weighted sum of the constituents' daily returns". -/
def vSum (vs : List Val) : Val := vs.foldl vAdd (some 0)

/-- Spec-side reading (for claim C1): the weighted return values of one
constituent, `pct_change` of its closes scaled by its weight. -/
def wrOf (c : List (ℕ × ℚ) × ℚ) : List Val :=
  (pctChange (c.1.map Prod.snd)).map (vScale c.2)

/-- Spec-side reading (for claim C1): position `i` of the composite daily
return is the NaN-propagating weighted sum of the constituents' returns at
position `i`. -/
def wsumVals (rls : List (List Val)) (n : ℕ) : List Val :=
  (List.range n).map (fun i => vSum (rls.map (fun l => l.getD i none)))

/-- What the code actually accumulates into `Cumulative` (for the amended
claim C1): the cumulative product of `(1 + weighted return)` of the FIRST
constituent, multiplied at each position by the single-date factors
`(1 + weighted return)` of every later constituent. -/
def portCumVals (w0 : List Val) (rls : List (List Val)) (n : ℕ) : List Val :=
  (List.range n).map (fun i =>
    (rls.map (fun l => l.getD i none)).foldl (fun a v => vMul a (vAdd1 v))
      ((cumprodSkip (w0.map vAdd1)).getD i none))

/-! Length bookkeeping for the series operators. -/

lemma retVals_length (x : ℚ) (xs : List ℚ) : (retVals x xs).length = xs.length := by
  induction xs generalizing x with
  | nil => rfl
  | cons y ys ih => simp [retVals, ih]

lemma pctChange_length (xs : List ℚ) : (pctChange xs).length = xs.length := by
  cases xs with
  | nil => rfl
  | cons x t => simp [pctChange, retVals_length]

lemma diffVals_length (x : ℚ) (xs : List ℚ) : (diffVals x xs).length = xs.length := by
  induction xs generalizing x with
  | nil => rfl
  | cons y ys ih => simp [diffVals, ih]

lemma diffList_length (xs : List ℚ) : (diffList xs).length = xs.length := by
  cases xs with
  | nil => rfl
  | cons x t => simp [diffList, diffVals_length]

lemma rollingMean_length (w : ℕ) (xs : List ℚ) :
    (rollingMean w xs).length = xs.length := by
  simp [rollingMean]

lemma cumprodSkipAux_length (acc : ℚ) (xs : List Val) :
    (cumprodSkipAux acc xs).length = xs.length := by
  induction xs generalizing acc with
  | nil => rfl
  | cons v t ih => cases v <;> simp [cumprodSkipAux, ih]

lemma cumprodSkip_length (xs : List Val) : (cumprodSkip xs).length = xs.length :=
  cumprodSkipAux_length 1 xs

lemma cummaxSkipAux_length (acc : Option ℚ) (xs : List Val) :
    (cummaxSkipAux acc xs).length = xs.length := by
  induction xs generalizing acc with
  | nil => cases acc <;> rfl
  | cons v t ih => cases v <;> cases acc <;> simp [cummaxSkipAux, ih]

lemma cummaxSkip_length (xs : List Val) : (cummaxSkip xs).length = xs.length :=
  cummaxSkipAux_length none xs

lemma gainsOf_length (xs : List ℚ) : (gainsOf xs).length = xs.length := by
  simp [gainsOf, diffList_length]

lemma lossesOf_length (xs : List ℚ) : (lossesOf xs).length = xs.length := by
  simp [lossesOf, diffList_length]

/-! Access utilities for `getD`. -/

lemma lt_length_of_getD_some {l : List Val} {i : ℕ} {q : ℚ}
    (h : l.getD i none = some q) : i < l.length := by
  by_contra hlt
  rw [List.getD_eq_default _ _ (Nat.le_of_not_lt hlt)] at h
  exact Option.noConfusion h

lemma getD_map_lt {α β : Type} (f : α → β) {l : List α} {i : ℕ} (h : i < l.length)
    (d : β) (d0 : α) : (l.map f).getD i d = f (l.getD i d0) := by
  rw [List.getD_eq_getElem _ _ (by simpa using h), List.getD_eq_getElem _ _ h,
    List.getElem_map]

lemma getD_range_map {β : Type} (g : ℕ → β) {n i : ℕ} (h : i < n) (d : β) :
    ((List.range n).map g).getD i d = g i := by
  rw [getD_map_lt g (by simpa using h) d 0, List.getD_eq_getElem _ _ (by simpa using h),
    List.getElem_range]

lemma zipWith_getD (f : Val → Val → Val) (hf : f none none = none)
    (as bs : List Val) (h : as.length = bs.length) (i : ℕ) :
    (List.zipWith f as bs).getD i none = f (as.getD i none) (bs.getD i none) := by
  induction as generalizing bs i with
  | nil =>
    cases bs with
    | nil => simpa [List.getD] using hf.symm
    | cons b t => exact absurd h (by simp)
  | cons a t ih =>
    cases bs with
    | nil => exact absurd h (by simp)
    | cons b u =>
      cases i with
      | zero => rfl
      | succ j => simpa [List.zipWith, List.getD] using ih u (by simpa using h) j

lemma take_eq_range_map_getD {α : Type} (l : List α) (d : α) {m : ℕ}
    (h : m ≤ l.length) : l.take m = (List.range m).map (fun j => l.getD j d) := by
  apply List.ext_getElem
  · simpa using h
  · intro n h1 h2
    have hn : n < l.length := by
      have := h1; simp [List.length_take] at this; omega
    rw [List.getElem_take, List.getElem_map, List.getElem_range,
      List.getD_eq_getElem _ _ hn]

lemma getD_drop {α : Type} (l : List α) (a j : ℕ) (d : α) :
    (l.drop a).getD j d = l.getD (a + j) d := by
  by_cases hj : a + j < l.length
  · have hj2 : j < (l.drop a).length := by simp [List.length_drop]; omega
    rw [List.getD_eq_getElem _ _ hj2, List.getD_eq_getElem _ _ hj, List.getElem_drop]
  · rw [List.getD_eq_default _ _ (by simp [List.length_drop]; omega),
      List.getD_eq_default _ _ (by omega)]

/-! Values of the running product, running maximum, and return series. -/

lemma vAdd1_some (q : ℚ) : vAdd1 (some q) = some (1 + q) := rfl

lemma vAdd1_none : vAdd1 none = none := rfl

lemma cumprodSkipAux_map_some_getD (l : List ℚ) (acc : ℚ) {k : ℕ} (hk : k < l.length) :
    (cumprodSkipAux acc (l.map some)).getD k none = some (acc * (l.take (k + 1)).prod) := by
  induction l generalizing acc k with
  | nil => exact absurd hk (by simp)
  | cons x t ih =>
    cases k with
    | zero => simp [cumprodSkipAux, List.getD]
    | succ k =>
      have h2 : k < t.length := by simpa using hk
      calc (cumprodSkipAux acc ((x :: t).map some)).getD (k + 1) none
          = (cumprodSkipAux (acc * x) (t.map some)).getD k none := rfl
        _ = some ((acc * x) * (t.take (k + 1)).prod) := ih (acc * x) h2
        _ = some (acc * ((x :: t).take (k + 2)).prod) := by
            rw [List.take_succ_cons, List.prod_cons, mul_assoc]

lemma retVals_one_add_pos {x : ℚ} {xs : List ℚ} (hx : 0 < x)
    (hxs : ∀ y ∈ xs, 0 < y) : ∀ r ∈ retVals x xs, 0 < 1 + r := by
  induction xs generalizing x with
  | nil => intro r hr; exact absurd hr (by simp [retVals])
  | cons y ys ih =>
    intro r hr
    rcases (by simpa [retVals] using hr : r = y / x - 1 ∨ r ∈ retVals y ys) with h | h
    · have : 1 + r = y / x := by rw [h]; ring
      rw [this]
      exact div_pos (hxs y (by simp)) hx
    · exact ih (hxs y (by simp)) (fun z hz => hxs z (by simp [hz])) r h

lemma cumprodSkipAux_pos {xs : List Val}
    (hxs : ∀ v ∈ xs, ∀ q : ℚ, v = some q → 0 < q) :
    ∀ {acc : ℚ}, 0 < acc →
      ∀ v ∈ cumprodSkipAux acc xs, ∀ q : ℚ, v = some q → 0 < q := by
  induction xs with
  | nil => intro acc _ v hv; exact absurd hv (by simp [cumprodSkipAux])
  | cons u t ih =>
    intro acc hacc v hv q hq
    have ht : ∀ v ∈ t, ∀ q : ℚ, v = some q → 0 < q :=
      fun v hv q hq => hxs v (by simp [hv]) q hq
    cases u with
    | none =>
      rcases (by simpa [cumprodSkipAux] using hv :
          v = none ∨ v ∈ cumprodSkipAux acc t) with h | h
      · subst h; exact absurd hq (by simp)
      · exact ih ht hacc v h q hq
    | some x =>
      have hx : 0 < x := hxs (some x) (by simp) x rfl
      rcases (by simpa [cumprodSkipAux] using hv :
          v = some (acc * x) ∨ v ∈ cumprodSkipAux (acc * x) t) with h | h
      · subst h
        injection hq with hq
        subst hq
        exact mul_pos hacc hx
      · exact ih ht (mul_pos hacc hx) v h q hq

lemma pctChange_vAdd1_pos {closes : List ℚ} (hpos : ∀ x ∈ closes, 0 < x) :
    ∀ v ∈ (pctChange closes).map vAdd1, ∀ q : ℚ, v = some q → 0 < q := by
  intro v hv q hq
  cases closes with
  | nil => exact absurd hv (by simp [pctChange])
  | cons c rest =>
    rcases (by simpa [pctChange] using hv :
        v = vAdd1 none ∨ ∃ r ∈ retVals c rest, vAdd1 (some r) = v) with h | ⟨r, hr, hrv⟩
    · rw [h] at hq; exact absurd hq (by simp [vAdd1_none])
    · rw [← hrv, vAdd1_some] at hq
      injection hq with hq
      rw [← hq]
      exact retVals_one_add_pos (hpos c (by simp)) (fun y hy => hpos y (by simp [hy])) r hr

lemma cumulativeOf_pos {closes : List ℚ} (hpos : ∀ x ∈ closes, 0 < x) :
    ∀ i q, (cumulativeOf closes).getD i none = some q → 0 < q := by
  intro i q h
  have hi : i < (cumulativeOf closes).length := lt_length_of_getD_some h
  rw [List.getD_eq_getElem _ _ hi] at h
  exact cumprodSkipAux_pos (pctChange_vAdd1_pos hpos) one_pos _
    (h ▸ List.getElem_mem hi) q h

lemma cummaxSkipAux_ge {xs : List Val} :
    ∀ {acc : Option ℚ} {i : ℕ} {q m : ℚ}, xs.getD i none = some q →
      (cummaxSkipAux acc xs).getD i none = some m → q ≤ m := by
  induction xs with
  | nil => intro acc i q m h _; exact absurd h (by simp)
  | cons u t ih =>
    intro acc i q m h hm
    cases i with
    | zero =>
      cases u with
      | none => exact absurd h (by simp)
      | some x =>
        injection (by simpa using h : some x = some q) with hx
        cases acc with
        | none =>
          injection (by simpa [cummaxSkipAux] using hm : some x = some m) with hm2
          rw [← hx, ← hm2]
        | some a =>
          injection (by simpa [cummaxSkipAux] using hm :
            some (max a x) = some m) with hm2
          rw [← hx, ← hm2]
          exact le_max_right a x
    | succ j =>
      cases u with
      | none => exact ih (by simpa using h) (by simpa [cummaxSkipAux] using hm)
      | some x =>
        cases acc with
        | none => exact ih (by simpa using h) (by simpa [cummaxSkipAux] using hm)
        | some a => exact ih (by simpa using h) (by simpa [cummaxSkipAux] using hm)

lemma cummaxSkipAux_attains {xs : List Val} :
    ∀ {acc : Option ℚ} {i : ℕ} {q : ℚ}, xs.getD i none = some q →
      (∀ j, j < i → ∀ p, xs.getD j none = some p → p ≤ q) →
      (∀ a, acc = some a → a ≤ q) →
      (cummaxSkipAux acc xs).getD i none = some q := by
  induction xs with
  | nil => intro acc i q h _ _; exact absurd h (by simp)
  | cons u t ih =>
    intro acc i q h hdom hacc
    cases i with
    | zero =>
      cases u with
      | none => exact absurd h (by simp)
      | some x =>
        injection (by simpa using h : some x = some q) with hx
        subst hx
        cases acc with
        | none => simp [cummaxSkipAux]
        | some a => simp [cummaxSkipAux, max_eq_right (hacc a rfl)]
    | succ j =>
      have hdom2 : ∀ k, k < j → ∀ p, t.getD k none = some p → p ≤ q :=
        fun k hk p hp => hdom (k + 1) (by omega) p (by simpa using hp)
      cases u with
      | none =>
        simpa [cummaxSkipAux] using ih (by simpa using h) hdom2 hacc
      | some x =>
        have hxq : x ≤ q := hdom 0 (by omega) x (by simp)
        cases acc with
        | none =>
          simpa [cummaxSkipAux] using
            ih (by simpa using h) hdom2
              (fun a ha => by injection ha with ha; rw [← ha]; exact hxq)
        | some a =>
          have haq : a ≤ q := hacc a rfl
          simpa [cummaxSkipAux] using
            ih (by simpa using h) hdom2
              (fun b hb => by
                injection hb with hb
                rw [← hb]
                exact max_le haq hxq)

lemma retVals_getD (c : ℚ) (rest : List ℚ) {j : ℕ} (hj : j < rest.length) :
    (retVals c rest).getD j 0 =
      (c :: rest).getD (j + 1) 0 / (c :: rest).getD j 0 - 1 := by
  induction rest generalizing c j with
  | nil => exact absurd hj (by simp)
  | cons y ys ih =>
    cases j with
    | zero => simp [retVals, List.getD]
    | succ j => simpa [retVals, List.getD] using ih y (by simpa using hj)

/-! Alignment lemmas: keyed lookup, column combination, and the shape of
the portfolio fold. -/

lemma vAdd_none_right : ∀ v : Val, vAdd v none = none := by
  intro v; cases v <;> rfl

lemma vAdd_some_zero : ∀ v : Val, vAdd (some 0) v = v := by
  intro v; cases v with
  | none => rfl
  | some q => simp [vAdd]

lemma lookupVal_not_mem {d : ℕ} : ∀ {s : ASeries}, d ∉ s.map Prod.fst →
    lookupVal d s = none := by
  intro s
  induction s with
  | nil => intro _; rfl
  | cons p t ih =>
    intro h
    have h1 : p.1 ≠ d := fun he => h (by simp [he])
    simpa [lookupVal, h1] using ih (fun hm => h (by simp [hm]))

lemma lookupVal_map_snd (g : Val → Val) (hg : g none = none) (d : ℕ) :
    ∀ s : ASeries, lookupVal d (s.map (fun q => (q.1, g q.2))) = g (lookupVal d s) := by
  intro s
  induction s with
  | nil => simpa [lookupVal] using hg.symm
  | cons p t ih =>
    by_cases h : p.1 = d
    · simp [lookupVal, h]
    · simpa [lookupVal, h] using ih

lemma lookupVal_zip_getElem {ds : List ℕ} (hnd : ds.Nodup) :
    ∀ {vs : List Val} {i : ℕ} (hi : i < ds.length), vs.length = ds.length →
      lookupVal ds[i] (ds.zip vs) = vs.getD i none := by
  induction ds with
  | nil => intro vs i hi _; exact absurd hi (by simp)
  | cons a t ih =>
    intro vs i hi hlen
    cases vs with
    | nil => exact absurd hlen (by simp)
    | cons v u =>
      cases i with
      | zero => simp [lookupVal]
      | succ j =>
        have hj : j < t.length := by simpa using hi
        have hat : a ∉ t := (List.nodup_cons.mp hnd).1
        have hne : a ≠ t[j] := fun he => hat (he ▸ List.getElem_mem hj)
        have hidx : ((a :: t)[j + 1] : ℕ) = t[j] := by simp
        rw [hidx]
        show lookupVal t[j] ((a, v) :: t.zip u) = (v :: u).getD (j + 1) none
        rw [List.getD_cons_succ]
        simpa [lookupVal, hne] using ih (List.nodup_cons.mp hnd).2 hj (by simpa using hlen)

lemma map_pair_id (s : ASeries) : s.map (fun p => (p.1, p.2)) = s := by
  induction s with
  | nil => rfl
  | cons p t ih => simp [ih]

lemma combineInto_map_fst (f : Val → Val → Val) (s t : ASeries) :
    (combineInto f s t).map Prod.fst = s.map Prod.fst := by
  simp [combineInto, List.map_map]

lemma combineInto_ne_nil (f : Val → Val → Val) {s : ASeries} (t : ASeries)
    (h : s ≠ []) : combineInto f s t ≠ [] := by
  simpa [combineInto] using h

lemma combineInto_fold (f : Val → Val → Val) (ls : List ASeries) :
    ∀ s : ASeries, List.foldl (combineInto f) s ls =
      s.map (fun p => (p.1, List.foldl (fun v e => f v (lookupVal p.1 e)) p.2 ls)) := by
  induction ls with
  | nil => intro s; exact (map_pair_id s).symm
  | cons e u ih =>
    intro s
    calc List.foldl (combineInto f) s (e :: u)
        = List.foldl (combineInto f) (combineInto f s e) u := rfl
      _ = (combineInto f s e).map
            (fun p => (p.1, List.foldl (fun v e2 => f v (lookupVal p.1 e2)) p.2 u)) := ih _
      _ = s.map (fun p => (p.1,
            List.foldl (fun v e2 => f v (lookupVal p.1 e2)) p.2 (e :: u))) := by
          simp [combineInto, List.map_map]

lemma portfolioStep_ne_of_ne {acc : PortfolioData} (e : ASeries)
    (h : acc.cumulative ≠ []) : (portfolioStep acc e).cumulative ≠ [] := by
  have hb : acc.cumulative.isEmpty = false := by
    cases hc : acc.cumulative with
    | nil => exact absurd hc h
    | cons p t => rfl
  simp only [portfolioStep, hb, Bool.false_eq_true, if_false]
  exact combineInto_ne_nil vMul _ h

lemma portfolio_fold_split (ls : List ASeries) :
    ∀ (cv dr : ASeries), cv ≠ [] →
      List.foldl portfolioStep ⟨cv, dr⟩ ls =
        ⟨List.foldl (fun c e => combineInto vMul c (e.map (fun q => (q.1, vAdd1 q.2)))) cv ls,
          List.foldl (combineInto vAdd) dr ls⟩ := by
  induction ls with
  | nil => intro cv dr _; rfl
  | cons e u ih =>
    intro cv dr hcv
    have hb : cv.isEmpty = false := by
      cases hc : cv with
      | nil => exact absurd hc hcv
      | cons p t => rfl
    have hstep : portfolioStep ⟨cv, dr⟩ e =
        ⟨combineInto vMul cv (e.map (fun q => (q.1, vAdd1 q.2))), combineInto vAdd dr e⟩ := by
      simp only [portfolioStep, hb, Bool.false_eq_true, if_false]
    calc List.foldl portfolioStep ⟨cv, dr⟩ (e :: u)
        = List.foldl portfolioStep (portfolioStep ⟨cv, dr⟩ e) u := rfl
      _ = List.foldl portfolioStep
            ⟨combineInto vMul cv (e.map (fun q => (q.1, vAdd1 q.2))),
              combineInto vAdd dr e⟩ u := by rw [hstep]
      _ = _ := ih _ _ (combineInto_ne_nil vMul _ hcv)

/-! The cumulative column in closed form. -/

lemma cumulativeOf_getD_zero (c : ℚ) (rest : List ℚ) :
    (cumulativeOf (c :: rest)).getD 0 none = none := rfl

lemma cumulativeOf_cons (c : ℚ) (rest : List ℚ) :
    cumulativeOf (c :: rest) =
      none :: cumprodSkipAux 1 (((retVals c rest).map (fun q => 1 + q)).map some) := by
  have h1 : ((retVals c rest).map some).map vAdd1 =
      ((retVals c rest).map (fun q => 1 + q)).map some := by
    rw [List.map_map, List.map_map]
    exact List.map_congr_left (fun r _ => rfl)
  simp only [cumulativeOf, pctChange, cumprodSkip, List.map_cons, vAdd1_none, h1]
  rfl

lemma cumulativeOf_getD_succ (c : ℚ) (rest : List ℚ) {k : ℕ} (hk : k < rest.length) :
    (cumulativeOf (c :: rest)).getD (k + 1) none =
      some ((((retVals c rest).map (fun q => 1 + q)).take (k + 1)).prod) := by
  rw [cumulativeOf_cons, List.getD_cons_succ,
    cumprodSkipAux_map_some_getD _ 1 (by simp [retVals_length]; omega), one_mul]

lemma retVals_take_prod : ∀ (rest : List ℚ) (c : ℚ), 0 < c →
    (∀ y ∈ rest, 0 < y) → ∀ k, k < rest.length →
      (((retVals c rest).map (fun q => 1 + q)).take (k + 1)).prod =
        rest.getD k 0 / c := by
  intro rest
  induction rest with
  | nil => intro c _ _ k hk; exact absurd hk (by simp)
  | cons y ys ih =>
    intro c hc hpos k hk
    have hy : 0 < y := hpos y (by simp)
    have h2 : ((1 + (y / c - 1)) : ℚ) = y / c := by ring
    cases k with
    | zero =>
      have h1 : ((retVals c (y :: ys)).map (fun q => 1 + q)).take 1 =
          [1 + (y / c - 1)] := rfl
      rw [h1, List.getD_cons_zero, List.prod_cons, List.prod_nil, mul_one, h2]
    | succ k =>
      have hk2 : k < ys.length := by simpa using hk
      have h1 : ((retVals c (y :: ys)).map (fun q => 1 + q)).take (k + 2) =
          (1 + (y / c - 1)) :: (((retVals y ys).map (fun q => 1 + q)).take (k + 1)) := rfl
      rw [h1, List.prod_cons, ih y hy (fun z hz => hpos z (by simp [hz])) k hk2,
        List.getD_cons_succ, h2, div_mul_div_comm, mul_comm c y,
        mul_div_mul_left _ _ hy.ne']

/-! The moving-average column in closed form. -/

lemma rollingMean_getD {w : ℕ} {xs : List ℚ} {i : ℕ} (hi : i < xs.length) :
    (rollingMean w xs).getD i none =
      if w ≤ i + 1 then some (((xs.drop (i + 1 - w)).take w).sum / (w : ℚ)) else none :=
  getD_range_map _ hi none

lemma countP_range_window (w : ℕ) (hw : 0 < w) :
    ∀ n, (List.range n).countP (fun i => decide (w ≤ i + 1)) = n + 1 - w := by
  intro n
  induction n with
  | zero => simp only [List.range_zero, List.countP_nil]; omega
  | succ n ih =>
    rw [List.range_succ, List.countP_append, ih, List.countP_singleton]
    by_cases h : w ≤ n + 1
    · rw [if_pos (by simp [h])]; omega
    · rw [if_neg (by simp [h])]; omega

/-- Claim C2, counterexample: on the two-bar series with closes 100, 102
the cumulative growth cell at index 0 is NaN (pandas `pct_change` puts NaN
at index 0 and `cumprod` keeps it), not the claimed 1.0. -/
theorem C2_counterexample :
    (cumulativeOf [(100 : ℚ), 102]).getD 0 none = none ∧
    (cumulativeOf [(100 : ℚ), 102]).getD 0 none ≠ some 1 := by
  constructor
  · rfl
  · decide

/-- Claim C2, amended: for every non-empty price series the cumulative
growth value at each index `i ≥ 1` equals the product over `j = 1..i` of
`(1 + r[j])` (the factor for `j` is written with index `j - 1` ranging over
`List.range i`), while the value at index 0 is undefined (NaN), not 1.0. -/
theorem C2_cumulativeProduct (closes : List ℚ) (h : closes ≠ []) :
    (cumulativeOf closes).getD 0 none = none ∧
    ∀ i, 1 ≤ i → i < closes.length →
      (cumulativeOf closes).getD i none =
        some (((List.range i).map
          (fun j => 1 + (closes.getD (j + 1) 0 / closes.getD j 0 - 1))).prod) := by
  cases closes with
  | nil => exact absurd rfl h
  | cons c rest =>
    refine ⟨cumulativeOf_getD_zero c rest, ?_⟩
    intro i h1 h2
    obtain ⟨k, rfl⟩ : ∃ k, i = k + 1 := ⟨i - 1, by omega⟩
    have hk : k < rest.length := by simpa using h2
    rw [cumulativeOf_getD_succ c rest hk]
    congr 1
    rw [take_eq_range_map_getD ((retVals c rest).map (fun q => 1 + q)) 0
      (by simp [retVals_length]; omega)]
    congr 1
    apply List.map_congr_left
    intro j hj
    have hjlt : j < rest.length := by
      have := List.mem_range.mp hj; omega
    rw [getD_map_lt _ (by simpa [retVals_length] using hjlt) 0 0,
      retVals_getD c rest hjlt]

/-- Claim C2, witness at closes 100, 102, 101. -/
theorem C2_witness :
    [(100 : ℚ), 102, 101] ≠ [] ∧
    (cumulativeOf [(100 : ℚ), 102, 101]).getD 2 none =
      some (((List.range 2).map
        (fun j => 1 + ([(100 : ℚ), 102, 101].getD (j + 1) 0 /
          [(100 : ℚ), 102, 101].getD j 0 - 1))).prod) :=
  ⟨by decide, (C2_cumulativeProduct [(100 : ℚ), 102, 101] (by decide)).2 2
    (by decide) (by decide)⟩

/-- Claim C6: for every positive window size `w`, the moving-average
column is defined for exactly `max (0, n - w + 1)` trailing indices
(written with truncated subtraction as `n + 1 - w`), is missing for every
index below `w - 1`, and at each defined index equals the arithmetic mean
of the `w` trailing closes. -/
theorem C6_movingAverage (w : ℕ) (closes : List ℚ) (hw : 0 < w) :
    ((rollingMean w closes).countP (fun v => v.isSome) = closes.length + 1 - w) ∧
    (∀ i, i < w - 1 → (rollingMean w closes).getD i none = none) ∧
    (∀ i, w - 1 ≤ i → i < closes.length →
      (rollingMean w closes).getD i none =
        some (((List.range w).map (fun k => closes.getD (i + 1 - w + k) 0)).sum /
          (w : ℚ))) := by
  refine ⟨?_, ?_, ?_⟩
  · rw [rollingMean, List.countP_map]
    have hfun : ((fun v : Val => v.isSome) ∘ fun i =>
        if w ≤ i + 1 then some (((closes.drop (i + 1 - w)).take w).sum / (w : ℚ)) else none)
        = fun i => decide (w ≤ i + 1) := by
      funext i
      by_cases h : w ≤ i + 1 <;> simp [h]
    rw [hfun, countP_range_window w hw]
  · intro i hi
    by_cases hlen : i < closes.length
    · rw [rollingMean_getD hlen, if_neg (by omega)]
    · exact List.getD_eq_default _ _ (by rw [rollingMean_length]; omega)
  · intro i h1 h2
    rw [rollingMean_getD h2, if_pos (by omega)]
    congr 2
    rw [take_eq_range_map_getD (closes.drop (i + 1 - w)) 0
      (by rw [List.length_drop]; omega)]
    congr 1
    apply List.map_congr_left
    intro j _
    exact getD_drop closes (i + 1 - w) j 0

/-- Claim C6, witness: the spec scenario, closes 100, 102, 101, 105, 107
with window 3 (MA defined at 3 indices; value at index 2 is the mean of
the first three closes). -/
theorem C6_witness :
    0 < 3 ∧
    ((rollingMean 3 [(100 : ℚ), 102, 101, 105, 107]).countP (fun v => v.isSome) =
      [(100 : ℚ), 102, 101, 105, 107].length + 1 - 3) ∧
    (rollingMean 3 [(100 : ℚ), 102, 101, 105, 107]).getD 2 none =
      some (((List.range 3).map
        (fun k => [(100 : ℚ), 102, 101, 105, 107].getD (2 + 1 - 3 + k) 0)).sum / (3 : ℚ)) :=
  ⟨by decide, (C6_movingAverage 3 [(100 : ℚ), 102, 101, 105, 107] (by decide)).1,
    (C6_movingAverage 3 [(100 : ℚ), 102, 101, 105, 107] (by decide)).2.2 2
      (by decide) (by decide)⟩

/-- Claim C10: with strictly positive closes the cumulative growth
telescopes: at every index `i ≥ 1` it is exactly `close[i] / close[0]`. -/
theorem C10_telescopes (closes : List ℚ) (hpos : ∀ x ∈ closes, 0 < x) :
    ∀ i, 1 ≤ i → i < closes.length →
      (cumulativeOf closes).getD i none =
        some (closes.getD i 0 / closes.getD 0 0) := by
  cases closes with
  | nil => intro i _ h2; exact absurd h2 (by simp)
  | cons c rest =>
    intro i h1 h2
    obtain ⟨k, rfl⟩ : ∃ k, i = k + 1 := ⟨i - 1, by omega⟩
    have hk : k < rest.length := by simpa using h2
    rw [cumulativeOf_getD_succ c rest hk,
      retVals_take_prod rest c (hpos c (by simp)) (fun y hy => hpos y (by simp [hy])) k hk,
      List.getD_cons_succ, List.getD_cons_zero]

/-- Claim C10, witness at closes 100, 102. -/
theorem C10_witness :
    (∀ x ∈ [(100 : ℚ), 102], 0 < x) ∧
    (cumulativeOf [(100 : ℚ), 102]).getD 1 none =
      some ([(100 : ℚ), 102].getD 1 0 / [(100 : ℚ), 102].getD 0 0) :=
  ⟨by decide, C10_telescopes [(100 : ℚ), 102] (by decide) 1 (by decide) (by decide)⟩

/-- Claim C7: with positive closes every defined drawdown cell is at most
0, and the drawdown is exactly 0 at every index where the cumulative
growth attains a (weak) new running maximum, i.e. is at least every
earlier defined cumulative value. -/
theorem C7_drawdown (closes : List ℚ) (hpos : ∀ x ∈ closes, 0 < x) :
    (∀ i q, (drawdownOf (cumulativeOf closes)).getD i none = some q → q ≤ 0) ∧
    (∀ i q, (cumulativeOf closes).getD i none = some q →
      (∀ j, j < i → ∀ p, (cumulativeOf closes).getD j none = some p → p ≤ q) →
      (drawdownOf (cumulativeOf closes)).getD i none = some 0) := by
  constructor
  · intro i q h
    rw [drawdownOf, zipWith_getD _ rfl _ _ (cummaxSkip_length _).symm i] at h
    cases hc : (cumulativeOf closes).getD i none with
    | none =>
      rw [hc] at h
      exact absurd h
        (by cases (cummaxSkip (cumulativeOf closes)).getD i none <;> simp [vSub, vDiv])
    | some cval =>
      cases hm : (cummaxSkip (cumulativeOf closes)).getD i none with
      | none =>
        rw [hc, hm] at h
        exact absurd h (by simp [vSub, vDiv])
      | some mval =>
        rw [hc, hm] at h
        simp only [vSub, vDiv, Option.some.injEq] at h
        have h1 : cval ≤ mval := cummaxSkipAux_ge hc hm
        have h2 : 0 < cval := cumulativeOf_pos hpos i cval hc
        rw [← h]
        exact div_nonpos_of_nonpos_of_nonneg (sub_nonpos.mpr h1)
          ((h2.trans_le h1).le)
  · intro i q hc hdom
    have hm : (cummaxSkip (cumulativeOf closes)).getD i none = some q :=
      cummaxSkipAux_attains hc hdom (fun a ha => Option.noConfusion ha)
    rw [drawdownOf, zipWith_getD _ rfl _ _ (cummaxSkip_length _).symm i, hc, hm]
    simp [vSub, vDiv]

/-- Claim C7, witness at closes 100, 102, 101: index 1 is a new running
maximum and its drawdown is exactly 0. -/
theorem C7_witness :
    (∀ x ∈ [(100 : ℚ), 102, 101], 0 < x) ∧
    (drawdownOf (cumulativeOf [(100 : ℚ), 102, 101])).getD 1 none = some 0 := by
  refine ⟨by decide,
    (C7_drawdown [(100 : ℚ), 102, 101] (by decide)).2 1 (51 / 50)
      (by norm_num [cumulativeOf, pctChange, retVals, cumprodSkip, cumprodSkipAux, vAdd1])
      ?_⟩
  intro j p hj hp
  have hj0 : j = 0 := by omega
  subst hj0
  have h0 : (cumulativeOf [(100 : ℚ), 102, 101]).getD 0 none = none := rfl
  rw [h0] at hp
  exact Option.noConfusion hp

/-- The RSI column cell by cell: the `zipWith` of `rsiCell` over the two
rolling means, at any index. -/
lemma rsiOf_getD (closes : List ℚ) (i : ℕ) :
    (rsiOf closes).getD i none =
      rsiCell ((rollingMean 14 (gainsOf closes)).getD i none)
        ((rollingMean 14 (lossesOf closes)).getD i none) :=
  zipWith_getD rsiCell rfl _ _
    (by rw [rollingMean_length, rollingMean_length, gainsOf_length, lossesOf_length]) i

/-- Claim C3, counterexample: on 14 constant closes the 14-period rolling
average loss at index 13 is exactly 0, yet the RSI cell is NaN (the float
code evaluates `0 / 0`), not the claimed 100. -/
theorem C3_counterexample :
    (rollingMean 14 (lossesOf (List.replicate 14 (100 : ℚ)))).getD 13 none = some 0 ∧
    (rsiOf (List.replicate 14 (100 : ℚ))).getD 13 none = none ∧
    (rsiOf (List.replicate 14 (100 : ℚ))).getD 13 none ≠ some 100 := by
  have hl : (rollingMean 14 (lossesOf (List.replicate 14 (100 : ℚ)))).getD 13 none =
      some 0 := by
    rw [rollingMean_getD (by simp [lossesOf_length])]
    norm_num [lossesOf, diffList, diffVals, List.replicate]
  have hg : (rollingMean 14 (gainsOf (List.replicate 14 (100 : ℚ)))).getD 13 none =
      some 0 := by
    rw [rollingMean_getD (by simp [gainsOf_length])]
    norm_num [gainsOf, diffList, diffVals, List.replicate]
  have hr : (rsiOf (List.replicate 14 (100 : ℚ))).getD 13 none = none := by
    rw [rsiOf_getD, hg, hl]
    simp [rsiCell]
  exact ⟨hl, hr, by rw [hr]; exact fun h => Option.noConfusion h⟩

/-- Claim C3, amended: at an index where the rolling average loss is
exactly 0, RSI is 100 when the rolling average gain is nonzero (the float
quotient is infinite and `100 - 100 / (1 + inf) = 100`), but NaN — not
100 — when the average gain is 0 as well (`0 / 0`). -/
theorem C3_rsiZeroLoss (closes : List ℚ) (i : ℕ) (g : ℚ)
    (hg : (rollingMean 14 (gainsOf closes)).getD i none = some g)
    (hl : (rollingMean 14 (lossesOf closes)).getD i none = some 0) :
    (rsiOf closes).getD i none = if g = 0 then none else some 100 := by
  rw [rsiOf_getD, hg, hl]
  simp [rsiCell]

/-- Claim C3, witness: 14 strictly increasing closes give average gain
13/14 and average loss 0 at index 13, hence RSI 100. -/
theorem C3_witness :
    (rsiOf [(1 : ℚ), 2, 3, 4, 5, 6, 7, 8, 9, 10, 11, 12, 13, 14]).getD 13 none =
      if (13 / 14 : ℚ) = 0 then none else some 100 :=
  C3_rsiZeroLoss [(1 : ℚ), 2, 3, 4, 5, 6, 7, 8, 9, 10, 11, 12, 13, 14] 13 (13 / 14)
    (by rw [rollingMean_getD (by simp [gainsOf_length])]
        norm_num [gainsOf, diffList, diffVals])
    (by rw [rollingMean_getD (by simp [lossesOf_length])]
        norm_num [lossesOf, diffList, diffVals])

/-- Claim C4: evaluation of the Sharpe column at the failing input and at
the constant-price input.  With closes 100, 102 there is a single defined
return, the sample standard deviation is NaN, the guard `volatility != 0`
is True for NaN, and the computed Sharpe is NaN — not the claimed 0.  With
the constant series 100, 100, 100 the deviation is exactly 0 and the
fallback does report 0. -/
theorem C4_sharpeEval :
    (get_data 20 50 [(0, 100), (1, 102)]).sharpe = SharpeVal.nan ∧
    (get_data 20 50 [(0, 100), (1, 100), (2, 100)]).sharpe = SharpeVal.zero :=
  ⟨by norm_num [get_data, sharpeOf, sampleVar, seriesMean, validVals, pctChange, retVals,
      List.filterMap_cons, List.filterMap_nil],
    by norm_num [get_data, sharpeOf, sampleVar, seriesMean, validVals, pctChange, retVals,
      List.filterMap_cons, List.filterMap_nil]⟩

lemma map_vScale_one (l : List Val) : l.map (vScale 1) = l := by
  have h : ∀ v : Val, vScale 1 v = v := by
    intro v
    cases v with
    | none => rfl
    | some q => simp [vScale]
  calc l.map (vScale 1) = l.map id := List.map_congr_left (fun v _ => h v)
    _ = l := List.map_id l

lemma portfolioStep_nil (e : ASeries) :
    portfolioStep ⟨[], []⟩ e =
      ⟨(e.map Prod.fst).zip (cumprodSkip ((e.map Prod.snd).map vAdd1)), e⟩ := rfl

/-- Claim C5: a single-ticker portfolio with weight exactly 1 reproduces
the single-asset daily-return, cumulative and drawdown columns and the
Sharpe scalar exactly — equality in exact arithmetic, which is stronger
than the claimed 1e-9 tolerance (and `x * 1.0 = x` holds exactly in floats
as well). -/
theorem C5_singleTicker (ma20w ma50w : ℕ) (bars : List (ℕ × ℚ)) :
    (portfolio_data ma20w ma50w [(bars, 1)]).dailyReturn =
      (get_data ma20w ma50w bars).dates.zip (get_data ma20w ma50w bars).returns ∧
    (portfolio_data ma20w ma50w [(bars, 1)]).cumulative =
      (get_data ma20w ma50w bars).dates.zip (get_data ma20w ma50w bars).cumulative ∧
    portfolioDrawdown (portfolio_data ma20w ma50w [(bars, 1)]) =
      (get_data ma20w ma50w bars).dates.zip (get_data ma20w ma50w bars).drawdown ∧
    portfolioSharpe (portfolio_data ma20w ma50w [(bars, 1)]) =
      (get_data ma20w ma50w bars).sharpe := by
  have hd : (get_data ma20w ma50w bars).dates = bars.map Prod.fst := rfl
  have hr : (get_data ma20w ma50w bars).returns = pctChange (bars.map Prod.snd) := rfl
  have hc : (get_data ma20w ma50w bars).cumulative =
      cumulativeOf (bars.map Prod.snd) := rfl
  have hdd : (get_data ma20w ma50w bars).drawdown =
      drawdownOf (cumulativeOf (bars.map Prod.snd)) := rfl
  have hs : (get_data ma20w ma50w bars).sharpe =
      sharpeOf (pctChange (bars.map Prod.snd)) := rfl
  have hlen1 : (get_data ma20w ma50w bars).dates.length =
      (get_data ma20w ma50w bars).returns.length := by
    rw [hd, hr, pctChange_length, List.length_map, List.length_map]
  have hentry : weightedEntry ma20w ma50w (bars, (1 : ℚ)) =
      (get_data ma20w ma50w bars).dates.zip (get_data ma20w ma50w bars).returns := by
    rw [weightedEntry, map_vScale_one]
  have hfst : ((get_data ma20w ma50w bars).dates.zip
      (get_data ma20w ma50w bars).returns).map Prod.fst =
      (get_data ma20w ma50w bars).dates :=
    List.map_fst_zip _ _ hlen1.le
  have hsnd : ((get_data ma20w ma50w bars).dates.zip
      (get_data ma20w ma50w bars).returns).map Prod.snd =
      (get_data ma20w ma50w bars).returns :=
    List.map_snd_zip _ _ hlen1.ge
  have hpd2 : portfolio_data ma20w ma50w [(bars, (1 : ℚ))] =
      { cumulative := (get_data ma20w ma50w bars).dates.zip
          (get_data ma20w ma50w bars).cumulative
        dailyReturn := (get_data ma20w ma50w bars).dates.zip
          (get_data ma20w ma50w bars).returns } := by
    show portfolioStep ⟨[], []⟩ (weightedEntry ma20w ma50w (bars, 1)) = _
    rw [hentry, portfolioStep_nil, hfst, hsnd, hr, hc]
    rfl
  have hlen2 : (get_data ma20w ma50w bars).dates.length =
      (get_data ma20w ma50w bars).cumulative.length := by
    rw [hd, hc]
    simp [cumulativeOf, cumprodSkip_length, pctChange_length]
  refine ⟨by rw [hpd2], by rw [hpd2], ?_, ?_⟩
  · simp only [portfolioDrawdown, hpd2]
    rw [List.map_fst_zip _ _ hlen2.le, List.map_snd_zip _ _ hlen2.ge, hc, hdd]
  · simp only [portfolioSharpe, hpd2]
    rw [hsnd, hr, hs]

/-- Claim C9: the weight check displays the mismatch message exactly when
the weights miss 1.0 by more than the 0.01 tolerance, and the portfolio
result is still computed (the section never aborts on this condition):
whenever the ticker and weight lists match in length the result is
produced, independent of the message. -/
theorem C9_weightMismatch (ma20w ma50w : ℕ) (tickers : List (List (ℕ × ℚ)))
    (ws : List ℚ) (h : ws.length = tickers.length) :
    (portfolioSection ma20w ma50w tickers ws).result =
      some (portfolio_data ma20w ma50w (tickers.zip ws)) ∧
    ((portfolioSection ma20w ma50w tickers ws).weightMismatchShown = true ↔
      |ws.sum - 1| > 1 / 100) := by
  constructor
  · simp [portfolioSection, h]
  · simp [portfolioSection]

/-- Claim C9, witness: the spec scenario weights 0.5, 0.3, 0.2 (summing to
exactly 1) produce a result and no mismatch message. -/
theorem C9_witness :
    ([(1 : ℚ) / 2, 3 / 10, 1 / 5].length =
      [[((1 : ℕ), (100 : ℚ))], [(1, 100)], [(1, 100)]].length) ∧
    (portfolioSection 20 50 [[((1 : ℕ), (100 : ℚ))], [(1, 100)], [(1, 100)]]
      [(1 : ℚ) / 2, 3 / 10, 1 / 5]).result =
      some (portfolio_data 20 50
        ([[((1 : ℕ), (100 : ℚ))], [(1, 100)], [(1, 100)]].zip [(1 : ℚ) / 2, 3 / 10, 1 / 5])) ∧
    ¬ ((portfolioSection 20 50 [[((1 : ℕ), (100 : ℚ))], [(1, 100)], [(1, 100)]]
      [(1 : ℚ) / 2, 3 / 10, 1 / 5]).weightMismatchShown = true) :=
  ⟨rfl,
    (C9_weightMismatch 20 50 [[((1 : ℕ), (100 : ℚ))], [(1, 100)], [(1, 100)]]
      [(1 : ℚ) / 2, 3 / 10, 1 / 5] rfl).1,
    fun htrue =>
      absurd ((C9_weightMismatch 20 50 [[((1 : ℕ), (100 : ℚ))], [(1, 100)], [(1, 100)]]
        [(1 : ℚ) / 2, 3 / 10, 1 / 5] rfl).2.mp htrue) (by norm_num)⟩

/-! Helpers for the portfolio loop in closed form. -/

lemma weightedEntry_eq_zip (ma20w ma50w : ℕ) (c : List (ℕ × ℚ) × ℚ) :
    weightedEntry ma20w ma50w c = (c.1.map Prod.fst).zip (wrOf c) := rfl

lemma wrOf_length (c : List (ℕ × ℚ) × ℚ) : (wrOf c).length = c.1.length := by
  simp [wrOf, pctChange_length]

lemma weightedEntry_keys (ma20w ma50w : ℕ) (c : List (ℕ × ℚ) × ℚ) :
    (weightedEntry ma20w ma50w c).map Prod.fst = c.1.map Prod.fst := by
  rw [weightedEntry_eq_zip]
  exact List.map_fst_zip _ _ (by rw [wrOf_length, List.length_map])

lemma portfolio_data_cons (ma20w ma50w : ℕ) (c0 : List (ℕ × ℚ) × ℚ)
    (cs : List (List (ℕ × ℚ) × ℚ)) :
    portfolio_data ma20w ma50w (c0 :: cs) =
      List.foldl portfolioStep (portfolioStep ⟨[], []⟩ (weightedEntry ma20w ma50w c0))
        (cs.map (weightedEntry ma20w ma50w)) := by
  rw [portfolio_data, ← List.foldl_map (weightedEntry ma20w ma50w) portfolioStep,
    List.map_cons, List.foldl_cons]

lemma zip_map_snd_fun {α β γ : Type} (g : β → γ) :
    ∀ (ds : List α) (vs : List β),
      (ds.zip vs).map (fun q => (q.1, g q.2)) = ds.zip (vs.map g) := by
  intro ds
  induction ds with
  | nil => intro vs; rfl
  | cons a t ih =>
    intro vs
    cases vs with
    | nil => rfl
    | cons v u => simpa using ih u

lemma map_fst_keyed (F : ℕ × Val → Val) (s : ASeries) :
    (s.map (fun p => (p.1, F p))).map Prod.fst = s.map Prod.fst := by
  simp [List.map_map]

lemma map_key_zip {ds : List ℕ} {vs : List Val} (F : ℕ × Val → Val) (G : ℕ → Val)
    (hlen : vs.length = ds.length)
    (hFG : ∀ (i : ℕ), i < ds.length → F (ds.getD i 0, vs.getD i none) = G i) :
    (ds.zip vs).map (fun p => (p.1, F p)) =
      ds.zip ((List.range ds.length).map G) := by
  apply List.ext_getElem
  · simp [hlen]
  · intro n h1 h2
    have hn : n < ds.length := by
      simpa [List.length_zip, hlen] using h1
    have hvn : n < vs.length := by omega
    have hz : n < (ds.zip vs).length := by
      simpa [List.length_zip, hlen] using hn
    rw [List.getElem_map, List.getElem_zip, List.getElem_zip, List.getElem_map,
      List.getElem_range]
    refine Prod.ext rfl ?_
    show F (ds[n], vs[n]) = G n
    rw [← List.getD_eq_getElem ds 0 hn, ← List.getD_eq_getElem vs none hvn]
    exact hFG n hn

lemma foldl_vAdd_none {α : Type} (g : α → Val) : ∀ ls : List α,
    List.foldl (fun a e => vAdd a (g e)) none ls = none := by
  intro ls
  induction ls with
  | nil => rfl
  | cons e u ih =>
    rw [List.foldl_cons]
    have h : vAdd none (g e) = none := by cases g e <;> rfl
    rw [h, ih]

lemma foldl_vAdd_absorb {α : Type} (g : α → Val) : ∀ (ls : List α) (v : Val),
    (∃ e ∈ ls, g e = none) → List.foldl (fun a e => vAdd a (g e)) v ls = none := by
  intro ls
  induction ls with
  | nil =>
    intro v h
    rcases h with ⟨e, he, _⟩
    exact absurd he (by simp)
  | cons e u ih =>
    intro v h
    rcases h with ⟨e2, he2, hg⟩
    rcases List.mem_cons.mp he2 with rfl | hmem
    · rw [List.foldl_cons, hg, vAdd_none_right]
      exact foldl_vAdd_none g u
    · rw [List.foldl_cons]
      exact ih _ ⟨e2, hmem, hg⟩

/-- Claim C8, counterexample: two constituents; the second lacks date 2,
which the first has.  Date 2 is NOT excluded from the composite: it stays
in the composite daily-return series with a NaN cell (pandas index
alignment NaN-fills the missing label). -/
theorem C8_counterexample :
    ((portfolio_data 20 50
        [([(1, 100), (2, 110), (3, 121)], (1 : ℚ) / 2),
          ([(1, 100), (3, 121)], (1 : ℚ) / 2)]).dailyReturn.map Prod.fst = [1, 2, 3]) ∧
    ((2, (none : Val)) ∈ (portfolio_data 20 50
        [([(1, 100), (2, 110), (3, 121)], (1 : ℚ) / 2),
          ([(1, 100), (3, 121)], (1 : ℚ) / 2)]).dailyReturn) :=
  ⟨by decide, by decide⟩

/-- Claim C8, amended: the composite series is indexed by the first
constituent's dates (dates absent from the first constituent are dropped);
a date of the first constituent at which some later constituent lacks data
is kept but NaN-filled in the composite daily return, not excluded.  The
behaviour is a deterministic function of the constituent order. -/
theorem C8_alignment (ma20w ma50w : ℕ) (c0 : List (ℕ × ℚ) × ℚ)
    (cs : List (List (ℕ × ℚ) × ℚ)) (h0 : c0.1 ≠ []) :
    ((portfolio_data ma20w ma50w (c0 :: cs)).dailyReturn.map Prod.fst =
      c0.1.map Prod.fst) ∧
    (∀ d, d ∈ c0.1.map Prod.fst → ∀ c, c ∈ cs → d ∉ c.1.map Prod.fst →
      (d, (none : Val)) ∈ (portfolio_data ma20w ma50w (c0 :: cs)).dailyReturn) := by
  have he0len : (weightedEntry ma20w ma50w c0).length = c0.1.length := by
    rw [weightedEntry_eq_zip, List.length_zip, wrOf_length, List.length_map, min_self]
  have hZne : ((weightedEntry ma20w ma50w c0).map Prod.fst).zip
      (cumprodSkip (((weightedEntry ma20w ma50w c0).map Prod.snd).map vAdd1)) ≠ [] := by
    apply List.length_pos.mp
    rw [List.length_zip, List.length_map, cumprodSkip_length, List.length_map,
      List.length_map, he0len, min_self]
    exact List.length_pos.mpr h0
  have hpair : portfolio_data ma20w ma50w (c0 :: cs) =
      ⟨List.foldl (fun c e => combineInto vMul c (e.map (fun q => (q.1, vAdd1 q.2))))
          (((weightedEntry ma20w ma50w c0).map Prod.fst).zip
            (cumprodSkip (((weightedEntry ma20w ma50w c0).map Prod.snd).map vAdd1)))
          (cs.map (weightedEntry ma20w ma50w)),
        List.foldl (combineInto vAdd) (weightedEntry ma20w ma50w c0)
          (cs.map (weightedEntry ma20w ma50w))⟩ := by
    rw [portfolio_data_cons, portfolioStep_nil, portfolio_fold_split _ _ _ hZne]
  have hDR : (portfolio_data ma20w ma50w (c0 :: cs)).dailyReturn =
      (weightedEntry ma20w ma50w c0).map (fun p => (p.1,
        List.foldl (fun v e => vAdd v (lookupVal p.1 e)) p.2
          (cs.map (weightedEntry ma20w ma50w)))) := by
    rw [hpair]
    exact combineInto_fold vAdd _ _
  constructor
  · rw [hDR, map_fst_keyed, weightedEntry_keys]
  · intro d hd c hc hdc
    rw [hDR]
    have hd2 : d ∈ (weightedEntry ma20w ma50w c0).map Prod.fst := by
      rw [weightedEntry_keys]
      exact hd
    rcases List.mem_map.mp hd2 with ⟨p, hp, hp1⟩
    apply List.mem_map.mpr
    refine ⟨p, hp, Prod.ext hp1 ?_⟩
    apply foldl_vAdd_absorb
    refine ⟨weightedEntry ma20w ma50w c, List.mem_map_of_mem _ hc, ?_⟩
    apply lookupVal_not_mem
    rw [weightedEntry_keys, hp1]
    exact hdc

/-- Claim C8, witness: first constituent has dates 1 and 2, the second
only date 1; the composite keeps index 1, 2 and carries NaN at date 2. -/
theorem C8_witness :
    ([((1 : ℕ), (100 : ℚ)), (2, 110)] ≠ []) ∧
    ((portfolio_data 20 50 [([((1 : ℕ), (100 : ℚ)), (2, 110)], 1 / 2),
        ([((1 : ℕ), (100 : ℚ))], 1 / 2)]).dailyReturn.map Prod.fst =
      [((1 : ℕ), (100 : ℚ)), (2, 110)].map Prod.fst) ∧
    (((2 : ℕ), (none : Val)) ∈ (portfolio_data 20 50
        [([((1 : ℕ), (100 : ℚ)), (2, 110)], 1 / 2),
          ([((1 : ℕ), (100 : ℚ))], 1 / 2)]).dailyReturn) :=
  ⟨by decide,
    (C8_alignment 20 50 ([((1 : ℕ), (100 : ℚ)), (2, 110)], 1 / 2)
      [([((1 : ℕ), (100 : ℚ))], 1 / 2)] (by decide)).1,
    (C8_alignment 20 50 ([((1 : ℕ), (100 : ℚ)), (2, 110)], 1 / 2)
      [([((1 : ℕ), (100 : ℚ))], 1 / 2)] (by decide)).2 2 (by decide)
      ([((1 : ℕ), (100 : ℚ))], 1 / 2) (List.mem_singleton.mpr rfl) (by decide)⟩

lemma portfolio_fold_nil_entries : ∀ ls : List ASeries, (∀ e ∈ ls, e = []) →
    List.foldl portfolioStep ⟨[], []⟩ ls = ⟨[], []⟩ := by
  intro ls
  induction ls with
  | nil => intro _; rfl
  | cons e u ih =>
    intro h
    rw [List.foldl_cons, h e (by simp), portfolioStep_nil]
    exact ih (fun e2 he2 => h e2 (by simp [he2]))

/-- Claim C1, counterexample: two identical constituents (closes 100 then
200 on dates 1, 2) with weights 1/2 each.  The composite daily return at
date 2 is 1 (the weighted sum), so the claimed cumulative would be 2, but
the code's composite cumulative cell is 9/4 = (1 + 1/2) * (1 + 1/2). -/
theorem C1_counterexample :
    (((portfolio_data 20 50 [([(1, 100), (2, 200)], (1 : ℚ) / 2),
        ([(1, 100), (2, 200)], (1 : ℚ) / 2)]).cumulative.map Prod.snd).getD 1 none =
      some (9 / 4)) ∧
    ((cumprodSkip (((portfolio_data 20 50 [([(1, 100), (2, 200)], (1 : ℚ) / 2),
        ([(1, 100), (2, 200)], (1 : ℚ) / 2)]).dailyReturn.map Prod.snd).map
          vAdd1)).getD 1 none = some 2) ∧
    (((portfolio_data 20 50 [([(1, 100), (2, 200)], (1 : ℚ) / 2),
        ([(1, 100), (2, 200)], (1 : ℚ) / 2)]).cumulative.map Prod.snd).getD 1 none ≠
      (cumprodSkip (((portfolio_data 20 50 [([(1, 100), (2, 200)], (1 : ℚ) / 2),
        ([(1, 100), (2, 200)], (1 : ℚ) / 2)]).dailyReturn.map Prod.snd).map
          vAdd1)).getD 1 none) := by
  have hA : ((portfolio_data 20 50 [([(1, 100), (2, 200)], (1 : ℚ) / 2),
      ([(1, 100), (2, 200)], (1 : ℚ) / 2)]).cumulative.map Prod.snd).getD 1 none =
      some (9 / 4) := by
    norm_num [portfolio_data, portfolioStep, weightedEntry, get_data, combineInto,
      lookupVal, cumprodSkip, cumprodSkipAux, vAdd, vMul, vAdd1, vScale, pctChange,
      retVals]
    simp
  have hB : (cumprodSkip (((portfolio_data 20 50 [([(1, 100), (2, 200)], (1 : ℚ) / 2),
      ([(1, 100), (2, 200)], (1 : ℚ) / 2)]).dailyReturn.map Prod.snd).map
        vAdd1)).getD 1 none = some 2 := by
    norm_num [portfolio_data, portfolioStep, weightedEntry, get_data, combineInto,
      lookupVal, cumprodSkip, cumprodSkipAux, vAdd, vMul, vAdd1, vScale, pctChange,
      retVals]
  refine ⟨hA, hB, ?_⟩
  rw [hA, hB]
  norm_num

/-- Claim C1, amended: over date-aligned constituents the composite
`Daily_Return` IS the NaN-propagating weighted sum of the constituents'
weighted returns at each aligned position, but the composite `Cumulative`
is NOT the cumulative product of (1 + composite return): it is the
cumulative product of the FIRST constituent's (1 + weighted return),
multiplied pointwise by the single-date factors (1 + weighted return) of
each later constituent. -/
theorem C1_composite (ma20w ma50w : ℕ) (ds : List ℕ) (hnd : ds.Nodup)
    (c0 : List (ℕ × ℚ) × ℚ) (cs : List (List (ℕ × ℚ) × ℚ))
    (hal : ∀ c ∈ c0 :: cs, c.1.map Prod.fst = ds) :
    (portfolio_data ma20w ma50w (c0 :: cs)).dailyReturn =
      ds.zip (wsumVals ((c0 :: cs).map wrOf) ds.length) ∧
    (portfolio_data ma20w ma50w (c0 :: cs)).cumulative =
      ds.zip (portCumVals (wrOf c0) (cs.map wrOf) ds.length) := by
  have hwlen : ∀ c ∈ c0 :: cs, (wrOf c).length = ds.length := by
    intro c hc
    rw [wrOf_length, ← List.length_map c.1 Prod.fst, hal c hc]
  have hzip : ∀ c ∈ c0 :: cs, weightedEntry ma20w ma50w c = ds.zip (wrOf c) := by
    intro c hc
    rw [weightedEntry_eq_zip, hal c hc]
  by_cases hds : ds = []
  · subst hds
    have hall : ∀ e ∈ (c0 :: cs).map (weightedEntry ma20w ma50w), e = [] := by
      intro e he
      rcases List.mem_map.mp he with ⟨c, hc, rfl⟩
      rw [hzip c hc]
      rfl
    have hfold : portfolio_data ma20w ma50w (c0 :: cs) = ⟨[], []⟩ := by
      rw [portfolio_data, ← List.foldl_map (weightedEntry ma20w ma50w) portfolioStep]
      exact portfolio_fold_nil_entries _ hall
    rw [hfold]
    exact ⟨rfl, rfl⟩
  · have hwr0len : (wrOf c0).length = ds.length := hwlen c0 (by simp)
    have hcp0len : (cumprodSkip ((wrOf c0).map vAdd1)).length = ds.length := by
      rw [cumprodSkip_length, List.length_map, hwr0len]
    have hdspos : 0 < ds.length := List.length_pos.mpr hds
    have hstep0 : portfolioStep ⟨[], []⟩ (weightedEntry ma20w ma50w c0) =
        ⟨ds.zip (cumprodSkip ((wrOf c0).map vAdd1)), ds.zip (wrOf c0)⟩ := by
      rw [portfolioStep_nil, hzip c0 (by simp), List.map_fst_zip _ _ hwr0len.ge,
        List.map_snd_zip _ _ hwr0len.le]
    have hZne : ds.zip (cumprodSkip ((wrOf c0).map vAdd1)) ≠ [] := by
      apply List.length_pos.mp
      rw [List.length_zip, hcp0len, min_self]
      exact hdspos
    have hpair : portfolio_data ma20w ma50w (c0 :: cs) =
        ⟨List.foldl (fun c e => combineInto vMul c (e.map (fun q => (q.1, vAdd1 q.2))))
            (ds.zip (cumprodSkip ((wrOf c0).map vAdd1)))
            (cs.map (weightedEntry ma20w ma50w)),
          List.foldl (combineInto vAdd) (ds.zip (wrOf c0))
            (cs.map (weightedEntry ma20w ma50w))⟩ := by
      rw [portfolio_data_cons, hstep0, portfolio_fold_split _ _ _ hZne]
    constructor
    · rw [hpair]
      show List.foldl (combineInto vAdd) (ds.zip (wrOf c0))
          (cs.map (weightedEntry ma20w ma50w)) = _
      rw [combineInto_fold]
      simp only [wsumVals]
      apply map_key_zip _ _ hwr0len
      intro i hi
      show List.foldl (fun v e => vAdd v (lookupVal (ds.getD i 0) e))
          ((wrOf c0).getD i none) (cs.map (weightedEntry ma20w ma50w)) =
        vSum (((c0 :: cs).map wrOf).map (fun l => l.getD i none))
      rw [← List.foldl_map (fun e => lookupVal (ds.getD i 0) e) vAdd, List.map_map]
      have hpt : cs.map ((fun e => lookupVal (ds.getD i 0) e) ∘ weightedEntry ma20w ma50w) =
          cs.map (fun c => (wrOf c).getD i none) := by
        apply List.map_congr_left
        intro c hc
        show lookupVal (ds.getD i 0) (weightedEntry ma20w ma50w c) = (wrOf c).getD i none
        rw [hzip c (by simp [hc]), List.getD_eq_getElem ds 0 hi]
        exact lookupVal_zip_getElem hnd hi (hwlen c (by simp [hc]))
      rw [hpt]
      show _ = vSum (((c0 :: cs).map wrOf).map (fun l => l.getD i none))
      simp only [vSum, List.map_map, List.map_cons, List.foldl_cons, vAdd_some_zero,
        Function.comp_def]
    · rw [hpair]
      show List.foldl (fun c e => combineInto vMul c (e.map (fun q => (q.1, vAdd1 q.2))))
          (ds.zip (cumprodSkip ((wrOf c0).map vAdd1)))
          (cs.map (weightedEntry ma20w ma50w)) = _
      rw [← List.foldl_map (fun e : ASeries => e.map (fun q => (q.1, vAdd1 q.2)))
        (combineInto vMul), List.map_map]
      have hL : cs.map ((fun e : ASeries => e.map (fun q => (q.1, vAdd1 q.2))) ∘
          weightedEntry ma20w ma50w) = cs.map (fun c => ds.zip ((wrOf c).map vAdd1)) := by
        apply List.map_congr_left
        intro c hc
        show (weightedEntry ma20w ma50w c).map (fun q => (q.1, vAdd1 q.2)) =
          ds.zip ((wrOf c).map vAdd1)
        rw [hzip c (by simp [hc]), zip_map_snd_fun]
      rw [hL, combineInto_fold]
      simp only [portCumVals]
      apply map_key_zip _ _ hcp0len
      intro i hi
      show List.foldl (fun v e => vMul v (lookupVal (ds.getD i 0) e))
          ((cumprodSkip ((wrOf c0).map vAdd1)).getD i none)
          (cs.map (fun c => ds.zip ((wrOf c).map vAdd1))) =
        ((cs.map wrOf).map (fun l => l.getD i none)).foldl
          (fun a v => vMul a (vAdd1 v)) ((cumprodSkip ((wrOf c0).map vAdd1)).getD i none)
      rw [← List.foldl_map (fun e => lookupVal (ds.getD i 0) e) vMul, List.map_map]
      have hpt2 : cs.map ((fun e => lookupVal (ds.getD i 0) e) ∘
          (fun c => ds.zip ((wrOf c).map vAdd1))) =
          cs.map (fun c => vAdd1 ((wrOf c).getD i none)) := by
        apply List.map_congr_left
        intro c hc
        show lookupVal (ds.getD i 0) (ds.zip ((wrOf c).map vAdd1)) =
          vAdd1 ((wrOf c).getD i none)
        rw [List.getD_eq_getElem ds 0 hi,
          lookupVal_zip_getElem hnd hi (by rw [List.length_map]; exact hwlen c (by simp [hc]))]
        exact getD_map_lt vAdd1 (by rw [hwlen c (by simp [hc])]; exact hi) none none
      rw [hpt2]
      show _ = ((cs.map wrOf).map (fun l => l.getD i none)).foldl
        (fun a v => vMul a (vAdd1 v)) ((cumprodSkip ((wrOf c0).map vAdd1)).getD i none)
      rw [← List.foldl_map vAdd1 vMul, List.map_map, List.map_map]
      simp only [Function.comp_def]

/-- Claim C1, witness: two aligned constituents on dates 1, 2 with weights
1/2, applied through the amended statement. -/
theorem C1_witness :
    ([(1 : ℕ), 2].Nodup) ∧
    ((portfolio_data 20 50 [([(1, 100), (2, 200)], (1 : ℚ) / 2),
        ([(1, 100), (2, 200)], (1 : ℚ) / 2)]).dailyReturn =
      [(1 : ℕ), 2].zip (wsumVals ([([((1 : ℕ), (100 : ℚ)), (2, 200)], (1 : ℚ) / 2),
        ([((1 : ℕ), (100 : ℚ)), (2, 200)], (1 : ℚ) / 2)].map wrOf) [(1 : ℕ), 2].length)) ∧
    ((portfolio_data 20 50 [([(1, 100), (2, 200)], (1 : ℚ) / 2),
        ([(1, 100), (2, 200)], (1 : ℚ) / 2)]).cumulative =
      [(1 : ℕ), 2].zip (portCumVals (wrOf ([((1 : ℕ), (100 : ℚ)), (2, 200)], (1 : ℚ) / 2))
        ([([((1 : ℕ), (100 : ℚ)), (2, 200)], (1 : ℚ) / 2)].map wrOf) [(1 : ℕ), 2].length)) :=
  ⟨by decide,
    (C1_composite 20 50 [1, 2] (by decide) ([((1 : ℕ), (100 : ℚ)), (2, 200)], (1 : ℚ) / 2)
      [([((1 : ℕ), (100 : ℚ)), (2, 200)], (1 : ℚ) / 2)]
      (by intro c hc; rcases List.mem_cons.mp hc with rfl | hc2
          · rfl
          · rcases List.mem_singleton.mp hc2 with rfl
            rfl)).1,
    (C1_composite 20 50 [1, 2] (by decide) ([((1 : ℕ), (100 : ℚ)), (2, 200)], (1 : ℚ) / 2)
      [([((1 : ℕ), (100 : ℚ)), (2, 200)], (1 : ℚ) / 2)]
      (by intro c hc; rcases List.mem_cons.mp hc with rfl | hc2
          · rfl
          · rcases List.mem_singleton.mp hc2 with rfl
            rfl)).2⟩

end StockTrader
